import Mathlib

/-!
Verification development for the clinical-trial matcher.

The Python sources under verification are `matching.py` (scoring and ranking),
`evaluate_fp_fn.py` (ground-truth predicate and confusion-matrix evaluation) and
`validation_improved.py` (validation strategies).  Machine floats of the Python
runtime are modelled by exact rationals, Python `int` by `Int`/`Nat`, and Python
dict/DataFrame records by structures whose fields are the ones the scored code
reads.  A record field that may hold a non-list value (e.g. a CSV `NaN`, or a
string that `ast.literal_eval` fails to parse) is modelled by `ListVal`.
-/

/-- Model of a Python value stored in a record field that the code feeds to
`safe_eval_list`: an actual list of strings, a string (`some` = `ast.literal_eval`
parses it to a list of strings, `none` = parsing raises), or any other value
(e.g. a CSV `NaN` float). -/
inductive ListVal where
  | list (xs : List String)
  | str (parsed : Option (List String))
  | other
deriving DecidableEq

/-- `safe_eval_list` from `matching.py` lines 12-21 (duplicated verbatim in
`evaluate_fp_fn.py` and `validation_improved.py`): a list is returned as is; a
string is parsed with `ast.literal_eval`, any exception yielding `[]`; every
other value yields `[]`. -/
def safe_eval_list : ListVal → List String
  | .list xs => xs
  | .str (some xs) => xs
  | .str none => []
  | .other => []

/-- Patient record: the fields of `patients.csv` read by the code under
verification.  `age` is an integer (the code applies `int(...)`). -/
structure Patient where
  age : Int
  gender : String
  condition_keywords : ListVal
  conditions : ListVal
deriving DecidableEq

/-- Trial record: the fields of `trials_clean.csv` read by the code under
verification. -/
structure Trial where
  nct_id : String
  title : String
  condition : String
  age_min : Int
  age_max : Int
  gender : String
  keywords : ListVal
deriving DecidableEq

/-! ### Model of `difflib.SequenceMatcher(None, a, b).ratio()`

`matching.py` line 78 calls the standard library's Ratcliff/Obershelp matcher.
`ratio()` is `2*M/T` where `T` is the total length of both strings and `M` the
total size of the matching blocks: recursively, the longest matching block
(earliest in `a`, then earliest in `b`, among the maximal-length ones) is found
and the regions to its left and to its right are matched recursively.  The
`autojunk` heuristic of `SequenceMatcher` only activates for strings of length
at least 200 and is not modelled. -/

/-- Length of the longest common prefix of two character lists: the size of the
matching run starting at a given pair of positions. -/
def commonRun : List Char → List Char → Nat
  | a :: as, b :: bs => if a = b then commonRun as bs + 1 else 0
  | _, _ => 0

/-- Keep the incumbent unless the candidate is strictly longer: scanning start
positions in increasing order therefore returns the earliest maximal block. -/
def bestOf (x y : Nat × Nat × Nat) : Nat × Nat × Nat :=
  if x.2.2 < y.2.2 then y else x

/-- The longest matching block `(i, j, k)` of two character lists:
`a[i:i+k] = b[j:j+k]`, `k` maximal, ties resolved to the smallest `i`, then the
smallest `j` (the contract of `SequenceMatcher.find_longest_match`). -/
def findLongestMatch (a b : List Char) : Nat × Nat × Nat :=
  (List.range a.length).foldl (fun acc i =>
    (List.range b.length).foldl (fun acc2 j =>
      bestOf acc2 (i, j, commonRun (a.drop i) (b.drop j))) acc) (0, 0, 0)

/-- The Ratcliff/Obershelp matching-blocks recursion, structured with explicit
fuel (each recursive call strictly shrinks the combined length, so fuel equal to
the combined length is always sufficient). -/
def matchingTotalAux : Nat → List Char → List Char → Nat
  | 0, _, _ => 0
  | fuel + 1, a, b =>
    if (findLongestMatch a b).2.2 = 0 then 0
    else
      matchingTotalAux fuel (a.take (findLongestMatch a b).1)
          (b.take (findLongestMatch a b).2.1) +
        (findLongestMatch a b).2.2 +
        matchingTotalAux fuel (a.drop ((findLongestMatch a b).1 + (findLongestMatch a b).2.2))
          (b.drop ((findLongestMatch a b).2.1 + (findLongestMatch a b).2.2))

/-- Total size `M` of the matching blocks of the Ratcliff/Obershelp recursion. -/
def matchingTotal (a b : List Char) : Nat :=
  matchingTotalAux (a.length + b.length) a b

/-- `int(SequenceMatcher(None, a, b).ratio() * 20)`: `ratio()` is `2*M/T` (or
`1.0` when `T = 0`), so in exact arithmetic the truncation by `int` of the
non-negative value `ratio() * 20` is `floor(40*M/T)`, which is natural-number
division. -/
def ratioTimes20 (a b : List Char) : Nat :=
  if a.length + b.length = 0 then 20
  else 40 * matchingTotal a b / (a.length + b.length)

/-! ### `calculate_match_score` (`matching.py` lines 23-85)

The four components are defined separately and summed in source order; the
reasons list concatenates the emissions in source order (age, gender, keyword,
condition). -/

/-- Python's `str.upper()`, on the character list (ASCII case mapping; the
byte-position-based `String.toUpper` is not kernel-reducible). -/
def pyUpper (s : String) : String := ⟨s.data.map Char.toUpper⟩

/-- Python's `str.lower()`, on the character list. -/
def pyLower (s : String) : String := ⟨s.data.map Char.toLower⟩

/-- Python's `s[:n]` string slice, on the character list. -/
def pyTake (s : String) (n : Nat) : String := ⟨s.data.take n⟩

/-- Age check of component 1: `trial_age_min <= patient_age <= trial_age_max`. -/
def ageOk (p : Patient) (t : Trial) : Bool :=
  decide (t.age_min ≤ p.age) && decide (p.age ≤ t.age_max)

/-- Component 1 contribution: `score += 20` when the age check passes. -/
def ageScore (p : Patient) (t : Trial) : Nat :=
  if ageOk p t then 20 else 0

/-- Component 1 reason, emitted unconditionally (lines 41 and 43). -/
def ageReason (p : Patient) (t : Trial) : String :=
  let pa := p.age
  let amin := t.age_min
  let amax := t.age_max
  if ageOk p t then
    "✓ Age " ++ toString pa ++ " within range (" ++ toString amin ++ "-" ++
      toString amax ++ ")"
  else
    "✗ Age " ++ toString pa ++ " outside range (" ++ toString amin ++ "-" ++
      toString amax ++ ")"

/-- Gender check of component 2, on the uppercased fields:
`trial_gender == "ALL" or trial_gender == patient_gender`. -/
def genderOk (p : Patient) (t : Trial) : Bool :=
  pyUpper t.gender == "ALL" || pyUpper t.gender == pyUpper p.gender

/-- Component 2 contribution: `score += 10` when the gender check passes. -/
def genderScore (p : Patient) (t : Trial) : Nat :=
  if genderOk p t then 10 else 0

/-- Component 2 reason, emitted unconditionally (lines 51 and 53). -/
def genderReason (p : Patient) (t : Trial) : String :=
  let tg := pyUpper t.gender
  if genderOk p t then "✓ Gender matches (" ++ tg ++ ")"
  else "✗ Gender mismatch (requires " ++ tg ++ ")"

/-- The intersection of the Python sets built from two lists: the distinct
elements of `xs` that also occur in `ys`, kept in first-occurrence order
(Python's set iteration order is hash-dependent; only the count and membership
of this list are relied upon). -/
def overlapList (xs ys : List String) : List String :=
  xs.dedup.filter (fun k => k ∈ ys)

/-- `overlap = patient_keywords.intersection(trial_keywords)` (line 60). -/
def keywordOverlap (p : Patient) (t : Trial) : List String :=
  overlapList (safe_eval_list p.condition_keywords) (safe_eval_list t.keywords)

/-- Component 3 contribution (lines 59-63): under the non-emptiness guard,
`min(len(overlap) * 10, 50)`; otherwise the component is skipped. -/
def keywordScore (p : Patient) (t : Trial) : Nat :=
  if safe_eval_list p.condition_keywords ≠ [] ∧ safe_eval_list t.keywords ≠ [] then
    min ((keywordOverlap p t).length * 10) 50
  else 0

/-- Component 3 reason (lines 65-67): emitted only when the component scored. -/
def keywordReasons (p : Patient) (t : Trial) : List String :=
  if safe_eval_list p.condition_keywords ≠ [] ∧ safe_eval_list t.keywords ≠ [] then
    if 0 < keywordScore p t then
      let n := (keywordOverlap p t).length
      let sample := String.intercalate ", " ((keywordOverlap p t).take 3)
      ["✓ " ++ toString n ++ " matching keywords: " ++ sample]
    else []
  else []

/-- Component 4 contribution (lines 70-80): under the guard that the patient has
a condition list and the trial condition is a non-empty string,
`int(SequenceMatcher(None, primary, trial_condition).ratio() * 20)` on the
lowercased strings. -/
def conditionScore (p : Patient) (t : Trial) : Nat :=
  match safe_eval_list p.conditions with
  | [] => 0
  | c :: _ =>
    if pyLower t.condition = "" then 0
    else ratioTimes20 (pyLower c).data (pyLower t.condition).data

/-- Component 4 reason (lines 82-83): emitted only when the contribution
exceeds 5 points. -/
def conditionReasons (p : Patient) (t : Trial) : List String :=
  match safe_eval_list p.conditions with
  | [] => []
  | c :: _ =>
    if pyLower t.condition = "" then []
    else if 5 < conditionScore p t then
      let sample := pyTake (pyLower c) 30
      ["✓ Primary condition \x27" ++ sample ++ "...\x27 similar to trial condition"]
    else []

/-- `calculate_match_score` from `matching.py` lines 23-85: the sum of the four
component contributions and the reasons emitted, both in source order. -/
def calculate_match_score (patient : Patient) (trial : Trial) : Nat × List String :=
  (ageScore patient trial + genderScore patient trial + keywordScore patient trial +
      conditionScore patient trial,
    [ageReason patient trial, genderReason patient trial] ++
      keywordReasons patient trial ++ conditionReasons patient trial)

/-- The match record appended for a trial clearing the threshold
(`matching.py` lines 107-113). -/
structure MatchResult where
  nct_id : String
  title : String
  condition : String
  score : Nat
  reasons : List String
deriving DecidableEq

/-- The list built by the loop of `match_patient_to_trials` (lines 100-113): one
record per trial with `score >= min_score`, in trial-collection order. -/
def preMatches (patient : Patient) (trials : List Trial) (min_score : Nat) :
    List MatchResult :=
  trials.filterMap (fun trial =>
    let sr := calculate_match_score patient trial
    if min_score ≤ sr.1 then
      some ⟨trial.nct_id, trial.title, trial.condition, sr.1, sr.2⟩
    else none)

/-- Comparison of `sorted(matches, key=lambda x: x["score"], reverse=True)`:
descending by score; Python's sort is stable, which `List.mergeSort` models. -/
def byScoreDesc (x y : MatchResult) : Bool := decide (y.score ≤ x.score)

/-- `match_patient_to_trials` from `matching.py` lines 87-117 (the Python
defaults are `top_k=10`, `min_score=20`): filter, stable-sort descending by
score, truncate to `top_k`. -/
def match_patient_to_trials (patient : Patient) (trials : List Trial)
    (top_k : Nat) (min_score : Nat) : List MatchResult :=
  ((preMatches patient trials min_score).mergeSort byScoreDesc).take top_k

/-! ### `is_valid_match` and the FP/FN analysis (`evaluate_fp_fn.py`) -/

/-- The gender conjunct of `is_valid_match` (`evaluate_fp_fn.py` lines 36-37):
`trial["gender"] == "ALL"` compared case-SENSITIVELY, or the uppercased fields
are equal. -/
def genderValidGT (patient : Patient) (trial : Trial) : Bool :=
  trial.gender == "ALL" || pyUpper trial.gender == pyUpper patient.gender

/-- `is_valid_match` from `evaluate_fp_fn.py` lines 22-51, the ground-truth
predicate: age in range, gender compatible (`genderValidGT`), score above the
60 (strict) / 50 (lenient) threshold, and in strict mode at least 2 overlapping
keywords. -/
def is_valid_match (patient : Patient) (trial : Trial) (score : Nat)
    (strict : Bool) : Bool :=
  let age_valid := decide (trial.age_min ≤ patient.age) &&
    decide (patient.age ≤ trial.age_max)
  let gender_valid := genderValidGT patient trial
  let score_valid := decide ((if strict then 60 else 50) ≤ score)
  let keyword_valid :=
    if strict then decide (2 ≤ (keywordOverlap patient trial).length) else true
  age_valid && gender_valid && score_valid && keyword_valid

/-- The four counters of `evaluate_matches_with_fp_fn` (lines 85-88). -/
structure ConfusionMatrix where
  true_positives : Nat
  false_positives : Nat
  true_negatives : Nat
  false_negatives : Nat
deriving DecidableEq

/-- `total = true_positives + false_positives + true_negatives + false_negatives`
(line 158). -/
def ConfusionMatrix.total (cm : ConfusionMatrix) : Nat :=
  cm.true_positives + cm.false_positives + cm.true_negatives + cm.false_negatives

/-- One sampled patient of the FP/FN analysis: the patient record, the cached
matches from the persisted `matches.json` joined with their trial records (the
lookup `trials_df[trials_df["nct_id"] == nct_id].iloc[0]`, by the unique id),
and the sampled not-recommended trials. -/
structure PatientSample where
  patient : Patient
  cached : List (Trial × Nat)
  not_recommended : List Trial

/-- Loop body for one recommended trial (lines 117-125): the ground-truth
predicate is applied to the CACHED score read from the persisted matches. -/
def stepRecommended (strict : Bool) (p : Patient) (cm : ConfusionMatrix)
    (m : Trial × Nat) : ConfusionMatrix :=
  if is_valid_match p m.1 m.2 strict then
    { cm with true_positives := cm.true_positives + 1 }
  else
    { cm with false_positives := cm.false_positives + 1 }

/-- Loop body for one sampled not-recommended trial (lines 139-155): the score
is recomputed fresh with `calculate_match_score` before the predicate. -/
def stepNotRecommended (strict : Bool) (p : Patient) (cm : ConfusionMatrix)
    (t : Trial) : ConfusionMatrix :=
  if is_valid_match p t (calculate_match_score p t).1 strict then
    { cm with false_negatives := cm.false_negatives + 1 }
  else
    { cm with true_negatives := cm.true_negatives + 1 }

/-- Per-patient body of the evaluation loop (lines 98-155): the recommended
trials are the cached matches with score at least `threshold`. -/
def evalPatient (strict : Bool) (threshold : Nat) (cm : ConfusionMatrix)
    (s : PatientSample) : ConfusionMatrix :=
  let recommended := s.cached.filter (fun m => threshold ≤ m.2)
  let cm1 := recommended.foldl (stepRecommended strict s.patient) cm
  s.not_recommended.foldl (stepNotRecommended strict s.patient) cm1

/-- The confusion matrix accumulated by `evaluate_matches_with_fp_fn` over all
sampled patients, starting from zeroed counters. -/
def evaluateCounts (strict : Bool) (threshold : Nat)
    (samples : List PatientSample) : ConfusionMatrix :=
  samples.foldl (evalPatient strict threshold) ⟨0, 0, 0, 0⟩

/-- `precision = TP / (TP + FP)` if the denominator is positive, else 0
(line 161).  Floats are modelled by exact rationals. -/
def precision (cm : ConfusionMatrix) : ℚ :=
  if 0 < cm.true_positives + cm.false_positives then
    (cm.true_positives : ℚ) / ((cm.true_positives : ℚ) + (cm.false_positives : ℚ))
  else 0

/-- `recall = TP / (TP + FN)` if the denominator is positive, else 0 (line 164). -/
def «recall» (cm : ConfusionMatrix) : ℚ :=
  if 0 < cm.true_positives + cm.false_negatives then
    (cm.true_positives : ℚ) / ((cm.true_positives : ℚ) + (cm.false_negatives : ℚ))
  else 0

/-- `f1_score = 2*(precision*recall)/(precision+recall)` if the denominator is
positive, else 0 (line 167). -/
def f1_score (cm : ConfusionMatrix) : ℚ :=
  if 0 < precision cm + «recall» cm then
    2 * (precision cm * «recall» cm) / (precision cm + «recall» cm)
  else 0

/-- `accuracy = (TP + TN) / total` if `total` is positive, else 0 (line 170). -/
def accuracy (cm : ConfusionMatrix) : ℚ :=
  if 0 < cm.total then
    ((cm.true_positives : ℚ) + (cm.true_negatives : ℚ)) / (cm.total : ℚ)
  else 0

/-- `fpr = FP / (FP + TN)` if the denominator is positive, else 0 (line 173). -/
def false_positive_rate (cm : ConfusionMatrix) : ℚ :=
  if 0 < cm.false_positives + cm.true_negatives then
    (cm.false_positives : ℚ) / ((cm.false_positives : ℚ) + (cm.true_negatives : ℚ))
  else 0

/-- `fnr = FN / (FN + TP)` if the denominator is positive, else 0 (line 176). -/
def false_negative_rate (cm : ConfusionMatrix) : ℚ :=
  if 0 < cm.false_negatives + cm.true_positives then
    (cm.false_negatives : ℚ) / ((cm.false_negatives : ℚ) + (cm.true_positives : ℚ))
  else 0

/-- Stated from the spec's words, for comparison in the refinement claim about
score recomputation: the recommended-trial classification with the score
recomputed fresh rather than read from the cached match. -/
def stepRecommendedFresh (strict : Bool) (p : Patient) (cm : ConfusionMatrix)
    (m : Trial × Nat) : ConfusionMatrix :=
  if is_valid_match p m.1 (calculate_match_score p m.1).1 strict then
    { cm with true_positives := cm.true_positives + 1 }
  else
    { cm with false_positives := cm.false_positives + 1 }

/-- Spec-words variant of `evalPatient` built on `stepRecommendedFresh`. -/
def evalPatientFresh (strict : Bool) (threshold : Nat) (cm : ConfusionMatrix)
    (s : PatientSample) : ConfusionMatrix :=
  let recommended := s.cached.filter (fun m => threshold ≤ m.2)
  let cm1 := recommended.foldl (stepRecommendedFresh strict s.patient) cm
  s.not_recommended.foldl (stepNotRecommended strict s.patient) cm1

/-- Spec-words variant of `evaluateCounts` built on `evalPatientFresh`. -/
def evaluateCountsFresh (strict : Bool) (threshold : Nat)
    (samples : List PatientSample) : ConfusionMatrix :=
  samples.foldl (evalPatientFresh strict threshold) ⟨0, 0, 0, 0⟩

/-! ### Validation strategies (`validation_improved.py`) -/

/-- The per-match classification of `validate_strict_heuristic` (lines 58-78):
the score is recomputed fresh (line 63); the cached match record contributes
only the trial identity used for the lookup. -/
def strictHeuristicValid (p : Patient) (t : Trial) : Bool :=
  let score := (calculate_match_score p t).1
  let age_valid := decide (t.age_min ≤ p.age) && decide (p.age ≤ t.age_max)
  let gender_valid := t.gender == "ALL" || pyUpper t.gender == pyUpper p.gender
  let score_valid := decide (60 ≤ score)
  let keyword_valid := decide (2 ≤ (keywordOverlap p t).length)
  age_valid && gender_valid && score_valid && keyword_valid

/-- Model of the `random` module's global Mersenne-Twister state.
`random.seed(n)` makes the state a pure function of `n`; `random.sample(pop, k)`
is a pure function of the state and the population.  The concrete selection
below is a model (the Twister stream is not reproduced); the claims depend only
on which state source each strategy reads, never on the sampled values. -/
structure PyRandom where
  state : Nat
deriving DecidableEq

/-- `random.seed(n)`: the state becomes a pure function of `n`. -/
def pySeed (n : Nat) : PyRandom := ⟨n⟩

/-- `random.sample(population, k)` as a pure function of state and population. -/
def pySample {α : Type} (r : PyRandom) (population : List α) (k : Nat) :
    List α × PyRandom :=
  let n := population.length
  let rot := if n = 0 then 0 else r.state % n
  ((population.drop rot ++ population.take rot).take k, ⟨r.state + 1⟩)

/-- Model of numpy's global RNG state: the ambient source that pandas
`DataFrame.sample` draws from when no `random_state` is given.  Python's
`random.seed` does not touch it. -/
structure NpRandom where
  state : Nat
deriving DecidableEq

/-- `df.sample(k)` with no `random_state`: a pure function of the ambient numpy
state and the rows. -/
def npSample {α : Type} (r : NpRandom) (rows : List α) (k : Nat) :
    List α × NpRandom :=
  let n := rows.length
  let rot := if n = 0 then 0 else r.state % n
  ((rows.drop rot ++ rows.take rot).take k, ⟨r.state + 1⟩)

/-- The patient sampling of `validate_strict_heuristic` (lines 44-49):
`random.seed(42)` resets the global `random` state, so the incoming state `r`
is discarded and the selection is a pure function of the data. -/
def strictHeuristicSampleIds (_r : PyRandom) (matchKeys : List String)
    (num_samples : Nat) : List String × PyRandom :=
  let r1 := pySeed 42
  pySample r1 matchKeys (min num_samples matchKeys.length)

/-- The sampling of `validate_negative_cases` (lines 154-155):
`patients_df.sample(min(10, len(patients_df)))` then
`trials_df.sample(min(10, len(trials_df)))`, both with no `random_state`,
drawing from the ambient numpy global state; no seed is set anywhere in the
function. -/
def negativeCasesSample (r : NpRandom) (patients : List Patient)
    (trials : List Trial) : (List Patient × List Trial) × NpRandom :=
  let sp := npSample r patients (min 10 patients.length)
  let st := npSample sp.2 trials (min 10 trials.length)
  ((sp.1, st.1), st.2)

/-! ### Concrete records used by witnesses and counterexamples -/

/-- A patient aged 30, male, with no usable keyword or condition lists. -/
def pA : Patient := ⟨30, "MALE", ListVal.other, ListVal.other⟩

/-- A trial accepting ages 18-65 and all genders, with no keyword list and an
empty condition string. -/
def tA : Trial := ⟨"NCT001", "T1", "", 18, 65, "ALL", ListVal.other⟩

/-- The match record `match_patient_to_trials pA [tA]` produces for `tA`. -/
def mA : MatchResult :=
  ⟨"NCT001", "T1", "", 30,
    ["✓ Age 30 within range (18-65)", "✓ Gender matches (ALL)"]⟩

/-- A patient sharing five keywords with `tK`. -/
def pK : Patient :=
  ⟨30, "MALE", ListVal.list ["a", "b", "c", "d", "e"], ListVal.other⟩

/-- A trial sharing five keywords with `pK`. -/
def tK : Trial :=
  ⟨"NCT002", "T2", "", 18, 65, "ALL", ListVal.list ["a", "b", "c", "d", "e"]⟩

/-- A patient sharing two keywords with `tB`. -/
def pB : Patient := ⟨30, "MALE", ListVal.list ["a", "b"], ListVal.other⟩

/-- A trial sharing two keywords with `pB`; fresh score 50 (20 age + 10 gender +
20 keywords). -/
def tB : Trial := ⟨"NCT003", "T3", "", 18, 65, "ALL", ListVal.list ["a", "b"]⟩

/-- A patient whose gender does not uppercase to "ALL". -/
def pF : Patient := ⟨30, "FEMALE", ListVal.other, ListVal.other⟩

/-- A trial whose gender field is the lowercase string "all". -/
def tLow : Trial := ⟨"NCT004", "T4", "", 18, 65, "all", ListVal.other⟩

/-- A trial whose gender field is "MALE". -/
def tM : Trial := ⟨"NCT005", "T5", "", 18, 65, "MALE", ListVal.other⟩

/-! ### Properties -/

theorem commonRun_le_left : ∀ a b : List Char, commonRun a b ≤ a.length := by
  intro a
  induction a with
  | nil => intro b; cases b <;> simp [commonRun]
  | cons x as ih =>
    intro b
    cases b with
    | nil => simp [commonRun]
    | cons y bs =>
      simp only [commonRun, List.length_cons]
      split
      · exact Nat.succ_le_succ (ih bs)
      · omega

theorem commonRun_le_right : ∀ a b : List Char, commonRun a b ≤ b.length := by
  intro a
  induction a with
  | nil => intro b; cases b <;> simp [commonRun]
  | cons x as ih =>
    intro b
    cases b with
    | nil => simp [commonRun]
    | cons y bs =>
      simp only [commonRun, List.length_cons]
      split
      · exact Nat.succ_le_succ (ih bs)
      · omega

/-- An invariant preserved by every step of a left fold holds of its result. -/
theorem foldl_invariant {α β : Type} (C : β → Prop) :
    ∀ (l : List α) (f : β → α → β) (init : β), C init →
      (∀ b a, a ∈ l → C b → C (f b a)) → C (l.foldl f init)
  | [], _, _, h0, _ => h0
  | a :: l, f, init, h0, hstep =>
    foldl_invariant C l f (f init a)
      (hstep init a (List.mem_cons_self a l) h0)
      (fun b x hx hb => hstep b x (List.mem_cons_of_mem a hx) hb)

/-- The block returned by `findLongestMatch` lies inside both lists. -/
theorem findLongestMatch_bounds (a b : List Char) :
    (findLongestMatch a b).1 + (findLongestMatch a b).2.2 ≤ a.length ∧
    (findLongestMatch a b).2.1 + (findLongestMatch a b).2.2 ≤ b.length := by
  unfold findLongestMatch
  apply foldl_invariant
    (fun t : Nat × Nat × Nat => t.1 + t.2.2 ≤ a.length ∧ t.2.1 + t.2.2 ≤ b.length)
  · exact ⟨Nat.zero_le _, Nat.zero_le _⟩
  · intro acc i hi hacc
    apply foldl_invariant
      (fun t : Nat × Nat × Nat => t.1 + t.2.2 ≤ a.length ∧ t.2.1 + t.2.2 ≤ b.length)
    · exact hacc
    · intro acc2 j hj hacc2
      unfold bestOf
      split
      · refine ⟨?_, ?_⟩
        · have h1 : i < a.length := List.mem_range.mp hi
          have h2 := commonRun_le_left (a.drop i) (b.drop j)
          simp only [List.length_drop] at h2
          simp only []
          omega
        · have h1 : j < b.length := List.mem_range.mp hj
          have h2 := commonRun_le_right (a.drop i) (b.drop j)
          simp only [List.length_drop] at h2
          simp only []
          omega
      · exact hacc2

theorem matchingTotalAux_le : ∀ (fuel : Nat) (a b : List Char),
    matchingTotalAux fuel a b ≤ a.length ∧ matchingTotalAux fuel a b ≤ b.length := by
  intro fuel
  induction fuel with
  | zero => intro a b; exact ⟨Nat.zero_le _, Nat.zero_le _⟩
  | succ n ih =>
    intro a b
    have hb := findLongestMatch_bounds a b
    rw [matchingTotalAux]
    split
    · exact ⟨Nat.zero_le _, Nat.zero_le _⟩
    · have hL := ih (a.take (findLongestMatch a b).1) (b.take (findLongestMatch a b).2.1)
      have hR := ih (a.drop ((findLongestMatch a b).1 + (findLongestMatch a b).2.2))
        (b.drop ((findLongestMatch a b).2.1 + (findLongestMatch a b).2.2))
      simp only [List.length_take, List.length_drop] at hL hR
      omega

theorem matchingTotal_le (a b : List Char) :
    matchingTotal a b ≤ a.length ∧ matchingTotal a b ≤ b.length :=
  matchingTotalAux_le (a.length + b.length) a b

theorem ratioTimes20_le (a b : List Char) : ratioTimes20 a b ≤ 20 := by
  unfold ratioTimes20
  split
  · exact Nat.le_refl 20
  · rename_i h
    have hm := matchingTotal_le a b
    have hle : 40 * matchingTotal a b ≤ 20 * (a.length + b.length) := by omega
    calc 40 * matchingTotal a b / (a.length + b.length)
        ≤ 20 * (a.length + b.length) / (a.length + b.length) :=
          Nat.div_le_div_right hle
      _ = 20 := Nat.mul_div_cancel 20 (Nat.pos_of_ne_zero h)

theorem ageScore_le (p : Patient) (t : Trial) : ageScore p t ≤ 20 := by
  unfold ageScore; split <;> omega

theorem genderScore_le (p : Patient) (t : Trial) : genderScore p t ≤ 10 := by
  unfold genderScore; split <;> omega

/-- The keyword component always equals `min(10*|overlap|, 50)`: when the
non-emptiness guard fails the overlap is empty and both sides are 0. -/
theorem keywordScore_eq (p : Patient) (t : Trial) :
    keywordScore p t = min ((keywordOverlap p t).length * 10) 50 := by
  unfold keywordScore
  split
  · rfl
  · rename_i h
    symm
    rcases not_and_or.mp h with h1 | h1
    · have h2 : safe_eval_list p.condition_keywords = [] := not_ne_iff.mp h1
      unfold keywordOverlap overlapList
      rw [h2]
      rfl
    · have h2 : safe_eval_list t.keywords = [] := not_ne_iff.mp h1
      unfold keywordOverlap overlapList
      rw [h2]
      have h3 :
          (safe_eval_list p.condition_keywords).dedup.filter
            (fun k => k ∈ ([] : List String)) = [] := by
        simp
      rw [h3]
      rfl

theorem keywordScore_le (p : Patient) (t : Trial) : keywordScore p t ≤ 50 := by
  rw [keywordScore_eq]; omega

theorem conditionScore_le (p : Patient) (t : Trial) : conditionScore p t ≤ 20 := by
  unfold conditionScore
  split
  · omega
  · split
    · omega
    · exact ratioTimes20_le _ _

theorem score_le_100 (p : Patient) (t : Trial) :
    (calculate_match_score p t).1 ≤ 100 := by
  have h1 := ageScore_le p t
  have h2 := genderScore_le p t
  have h3 := keywordScore_le p t
  have h4 := conditionScore_le p t
  unfold calculate_match_score
  omega

theorem reasons_head (p : Patient) (t : Trial) :
    (calculate_match_score p t).2.head? = some (ageReason p t) := rfl

theorem reasons_ne_nil (p : Patient) (t : Trial) :
    (calculate_match_score p t).2 ≠ [] := by
  intro h
  have := congrArg List.head? h
  rw [reasons_head] at this
  cases this

/-- Every record of `preMatches` clears the threshold and carries the score and
reasons of `calculate_match_score` on some trial of the collection. -/
theorem preMatches_mem {p : Patient} {trials : List Trial} {min_score : Nat}
    {m : MatchResult} (hm : m ∈ preMatches p trials min_score) :
    min_score ≤ m.score ∧ ∃ t ∈ trials,
      (calculate_match_score p t).1 = m.score ∧
      (calculate_match_score p t).2 = m.reasons := by
  unfold preMatches at hm
  obtain ⟨t, ht, hf⟩ := List.mem_filterMap.mp hm
  dsimp only at hf
  split at hf
  · rename_i hle
    cases hf
    exact ⟨hle, t, ht, rfl, rfl⟩
  · cases hf

/-- C1: `calculate_match_score` always returns a score between 0 and 100 and a
non-empty reasons list, and consequently every record returned by
`match_patient_to_trials` has a score between 0 and 100 and non-empty reasons. -/
theorem claim_C1_score_invariant (p : Patient) (t : Trial) (trials : List Trial)
    (top_k min_score : Nat) :
    (0 ≤ (calculate_match_score p t).1 ∧ (calculate_match_score p t).1 ≤ 100 ∧
      (calculate_match_score p t).2 ≠ []) ∧
    ∀ m ∈ match_patient_to_trials p trials top_k min_score,
      0 ≤ m.score ∧ m.score ≤ 100 ∧ m.reasons ≠ [] := by
  refine ⟨⟨Nat.zero_le _, score_le_100 p t, reasons_ne_nil p t⟩, fun m hm => ?_⟩
  have h1 : m ∈ (preMatches p trials min_score).mergeSort byScoreDesc :=
    List.mem_of_mem_take hm
  have h2 : m ∈ preMatches p trials min_score := List.mem_mergeSort.mp h1
  obtain ⟨tr, -, hs, hr⟩ := (preMatches_mem h2).2
  exact ⟨Nat.zero_le _, hs ▸ score_le_100 p tr, hr ▸ reasons_ne_nil p tr⟩

/-- Witness for C1 at a concrete patient and singleton trial collection. -/
theorem claim_C1_score_invariant_witness :
    0 ≤ mA.score ∧ mA.score ≤ 100 ∧ mA.reasons ≠ [] := by
  refine (claim_C1_score_invariant pA tA [tA] 10 20).2 mA ?_
  have h : preMatches pA [tA] 20 = [mA] := by decide
  unfold match_patient_to_trials
  rw [h, List.mergeSort_singleton]
  decide

/-- C3: the age component contributes exactly 20 points when
`ageMin ≤ age ≤ ageMax` (inclusive) and exactly 0 otherwise, with no partial
credit, and the satisfied/violated reason naming the patient's age and the
trial's range is always emitted (it heads the reasons list). -/
theorem claim_C3_age_component (p : Patient) (t : Trial) :
    ((t.age_min ≤ p.age ∧ p.age ≤ t.age_max) →
      ageScore p t = 20 ∧
      ageReason p t = "✓ Age " ++ toString p.age ++ " within range (" ++
        toString t.age_min ++ "-" ++ toString t.age_max ++ ")") ∧
    (¬(t.age_min ≤ p.age ∧ p.age ≤ t.age_max) →
      ageScore p t = 0 ∧
      ageReason p t = "✗ Age " ++ toString p.age ++ " outside range (" ++
        toString t.age_min ++ "-" ++ toString t.age_max ++ ")") ∧
    (calculate_match_score p t).2.head? = some (ageReason p t) := by
  refine ⟨fun h => ?_, fun h => ?_, reasons_head p t⟩
  · have hb : ageOk p t = true := by
      unfold ageOk
      simp only [Bool.and_eq_true, decide_eq_true_eq]
      exact h
    unfold ageScore ageReason
    rw [hb]
    exact ⟨rfl, rfl⟩
  · have hb : ageOk p t = false := by
      rcases Bool.eq_false_or_eq_true (ageOk p t) with hb | hb
      · exfalso
        apply h
        unfold ageOk at hb
        simp only [Bool.and_eq_true, decide_eq_true_eq] at hb
        exact hb
      · exact hb
    unfold ageScore ageReason
    rw [hb]
    exact ⟨rfl, rfl⟩

/-- Witness for C3 at a patient inside and a patient outside the range. -/
theorem claim_C3_age_component_witness :
    (ageScore pA tA = 20 ∧ ageReason pA tA = "✓ Age 30 within range (18-65)") ∧
    (ageScore ⟨70, "MALE", ListVal.other, ListVal.other⟩ tA = 0 ∧
      ageReason ⟨70, "MALE", ListVal.other, ListVal.other⟩ tA =
        "✗ Age 70 outside range (18-65)") := by
  constructor
  · have h := (claim_C3_age_component pA tA).1 (by decide)
    exact ⟨h.1, h.2.trans (by decide)⟩
  · have h := (claim_C3_age_component ⟨70, "MALE", ListVal.other, ListVal.other⟩ tA).2.1
      (by decide)
    exact ⟨h.1, h.2.trans (by decide)⟩

/-- C4: the keyword-overlap component equals `min(10*|overlap|, 50)`, is
monotone non-decreasing in the overlap size, and saturates at 50 once the
overlap has at least 5 elements. -/
theorem claim_C4_keyword_component (p : Patient) (t : Trial) (p2 : Patient)
    (t2 : Trial) :
    keywordScore p t = min (10 * (keywordOverlap p t).length) 50 ∧
    ((keywordOverlap p t).length ≤ (keywordOverlap p2 t2).length →
      keywordScore p t ≤ keywordScore p2 t2) ∧
    (5 ≤ (keywordOverlap p t).length → keywordScore p t = 50) := by
  have h1 := keywordScore_eq p t
  have h2 := keywordScore_eq p2 t2
  refine ⟨by omega, fun h => by omega, fun h => by omega⟩

/-- Witness for C4: a five-keyword overlap saturates at 50 and dominates a
two-keyword overlap. -/
theorem claim_C4_keyword_component_witness :
    keywordScore pK tK = min (10 * (keywordOverlap pK tK).length) 50 ∧
    keywordScore pB tB ≤ keywordScore pK tK ∧
    keywordScore pK tK = 50 := by
  have h := claim_C4_keyword_component pK tK pB tB
  have h2 := claim_C4_keyword_component pB tB pK tK
  exact ⟨h.1, h2.2.1 (by decide), h.2.2 (by decide)⟩

/-- C5: the strict ground-truth predicate implies the lenient one. -/
theorem claim_C5_strict_implies_lenient (p : Patient) (t : Trial) (score : Nat) :
    is_valid_match p t score true = true → is_valid_match p t score false = true := by
  intro h
  simp only [is_valid_match, Bool.and_eq_true, decide_eq_true_eq] at h ⊢
  obtain ⟨⟨⟨ha, hg⟩, hs⟩, -⟩ := h
  refine ⟨⟨⟨ha, hg⟩, ?_⟩, ?_⟩
  · simp only [if_true] at hs
    simp only [Bool.false_eq_true, if_false]
    omega
  · simp

/-- Witness for C5 at a concrete strict-valid pair. -/
theorem claim_C5_strict_implies_lenient_witness :
    is_valid_match pB tB 60 false = true :=
  claim_C5_strict_implies_lenient pB tB 60 (by decide)

/-- C7: scoring is total on every record; a missing or empty keyword set or
condition list makes its component (score and reason) contribute nothing, and
the score is always the sum of the four components. -/
theorem claim_C7_malformed_fields (p : Patient) (t : Trial) :
    ((safe_eval_list p.condition_keywords = [] ∨ safe_eval_list t.keywords = []) →
      keywordScore p t = 0 ∧ keywordReasons p t = []) ∧
    (safe_eval_list p.conditions = [] →
      conditionScore p t = 0 ∧ conditionReasons p t = []) ∧
    calculate_match_score p t =
      (ageScore p t + genderScore p t + keywordScore p t + conditionScore p t,
        [ageReason p t, genderReason p t] ++ keywordReasons p t ++
          conditionReasons p t) := by
  refine ⟨fun h => ?_, fun h => ?_, rfl⟩
  · have hg : ¬(safe_eval_list p.condition_keywords ≠ [] ∧
        safe_eval_list t.keywords ≠ []) := by
      rcases h with h | h
      · exact fun hc => hc.1 h
      · exact fun hc => hc.2 h
    constructor
    · unfold keywordScore
      rw [if_neg hg]
    · unfold keywordReasons
      rw [if_neg hg]
  · constructor
    · unfold conditionScore
      rw [h]
    · unfold conditionReasons
      rw [h]

/-- Witness for C7 at a patient whose keyword field is a non-list value and
whose condition field is an unparseable string. -/
theorem claim_C7_malformed_fields_witness :
    (keywordScore ⟨30, "MALE", ListVal.other, ListVal.str none⟩ tA = 0 ∧
      keywordReasons ⟨30, "MALE", ListVal.other, ListVal.str none⟩ tA = []) ∧
    (conditionScore ⟨30, "MALE", ListVal.other, ListVal.str none⟩ tA = 0 ∧
      conditionReasons ⟨30, "MALE", ListVal.other, ListVal.str none⟩ tA = []) := by
  have h := claim_C7_malformed_fields ⟨30, "MALE", ListVal.other, ListVal.str none⟩ tA
  exact ⟨h.1 (Or.inl (by decide)), h.2.1 (by decide)⟩

/-- The scorer's gender component contributes 10 exactly when `genderOk`. -/
theorem genderScore_beq (p : Patient) (t : Trial) :
    (genderScore p t == 10) = genderOk p t := by
  unfold genderScore
  cases h : genderOk p t <;> simp [h]

/-- C10: on trials whose gender field is written in uppercase, the ground-truth
gender conjunct agrees with the scorer's gender component; on a trial whose
gender field is the lowercase "all" and a patient of non-matching gender, the
scorer awards the 10 gender points while the ground-truth predicate judges the
pair gender-incompatible. -/
theorem claim_C10_gender_case_mismatch (p : Patient) (t : Trial) :
    (t.gender ∈ (["ALL", "MALE", "FEMALE"] : List String) →
      genderValidGT p t = (genderScore p t == 10)) ∧
    (t.gender = "all" → pyUpper p.gender ≠ "ALL" →
      genderScore p t = 10 ∧ genderValidGT p t = false) := by
  constructor
  · intro h
    rw [genderScore_beq]
    unfold genderValidGT genderOk
    simp only [List.mem_cons, List.mem_singleton] at h
    rcases h with h | h | h | h
    · rw [h]
      rw [show pyUpper "ALL" = "ALL" from by decide]
    · rw [h]
      rw [show pyUpper "MALE" = "MALE" from by decide]
    · rw [h]
      rw [show pyUpper "FEMALE" = "FEMALE" from by decide]
    · cases h
  · intro h h2
    constructor
    · unfold genderScore genderOk
      rw [h, show pyUpper "all" = "ALL" from by decide]
      rfl
    · unfold genderValidGT
      rw [h, show pyUpper "all" = "ALL" from by decide]
      have e1 : (("all" : String) == "ALL") = false := by decide
      rw [e1]
      simp only [Bool.false_or]
      rw [beq_eq_false_iff_ne]
      exact fun hh => h2 hh.symm

/-- Witness for C10: agreement on an uppercase trial gender, divergence on the
lowercase "all". -/
theorem claim_C10_gender_case_mismatch_witness :
    genderValidGT pF tM = (genderScore pF tM == 10) ∧
    genderScore pF tLow = 10 ∧ genderValidGT pF tLow = false := by
  refine ⟨(claim_C10_gender_case_mismatch pF tM).1 (by decide), ?_⟩
  exact (claim_C10_gender_case_mismatch pF tLow).2 (by decide) (by decide)

/-- Filtering a prefix of a list yields a prefix of the filtered list, expressed
with `take`. -/
theorem filter_take_eq {α : Type} (p : α → Bool) :
    ∀ (l : List α) (k : Nat), ∃ n, (l.take k).filter p = (l.filter p).take n := by
  intro l
  induction l with
  | nil => intro k; exact ⟨0, by simp⟩
  | cons x xs ih =>
    intro k
    cases k with
    | zero => exact ⟨0, rfl⟩
    | succ k =>
      obtain ⟨n, hn⟩ := ih k
      by_cases hx : p x
      · refine ⟨n + 1, ?_⟩
        rw [List.take_succ_cons, List.filter_cons_of_pos hx,
          List.filter_cons_of_pos hx, List.take_succ_cons, hn]
      · refine ⟨n, ?_⟩
        rw [List.take_succ_cons, List.filter_cons_of_neg hx,
          List.filter_cons_of_neg hx, hn]

theorem byScoreDesc_trans (a b c : MatchResult) :
    byScoreDesc a b → byScoreDesc b c → byScoreDesc a c := by
  unfold byScoreDesc
  simp only [decide_eq_true_eq]
  omega

theorem byScoreDesc_total (a b : MatchResult) :
    byScoreDesc a b || byScoreDesc b a := by
  unfold byScoreDesc
  rcases Nat.le_total b.score a.score with h | h <;> simp [h]

/-- Stability of the sort: for each score value, the sorted list restricted to
that score equals the input restricted to that score, in input order. -/
theorem mergeSort_filter_score (l : List MatchResult) (q : Nat) :
    (l.mergeSort byScoreDesc).filter (fun m => m.score == q) =
      l.filter (fun m => m.score == q) := by
  have hpw : (l.filter (fun m => m.score == q)).Pairwise
      (fun a b => byScoreDesc a b = true) := by
    apply List.pairwise_of_forall_mem_list
    intro a ha b hb
    have ha2 := (List.mem_filter.mp ha).2
    have hb2 := (List.mem_filter.mp hb).2
    simp only [beq_iff_eq] at ha2 hb2
    unfold byScoreDesc
    rw [ha2, hb2]
    simp
  have h1 : List.Sublist (l.filter (fun m => m.score == q))
      (l.mergeSort byScoreDesc) :=
    List.sublist_mergeSort byScoreDesc_trans byScoreDesc_total hpw
      (List.filter_sublist l)
  have h2 := h1.filter (fun m => m.score == q)
  have h3 : (l.filter (fun m => m.score == q)).filter (fun m => m.score == q) =
      l.filter (fun m => m.score == q) :=
    List.filter_eq_self.mpr (fun a ha => (List.mem_filter.mp ha).2)
  rw [h3] at h2
  have h4 : ((l.mergeSort byScoreDesc).filter (fun m => m.score == q)).length =
      (l.filter (fun m => m.score == q)).length :=
    ((List.mergeSort_perm l byScoreDesc).filter _).length_eq
  exact (h2.eq_of_length h4.symm).symm

/-- C2: `match_patient_to_trials` returns only results clearing `min_score`,
sorted by score descending, with equal-score results preserving the original
trial-collection order (the returned slice of each score class is a prefix of
that score class in collection order), and at most `top_k` results. -/
theorem claim_C2_rank_contract (p : Patient) (trials : List Trial)
    (top_k min_score : Nat) :
    (∀ m ∈ match_patient_to_trials p trials top_k min_score, min_score ≤ m.score) ∧
    (match_patient_to_trials p trials top_k min_score).Pairwise
      (fun a b => b.score ≤ a.score) ∧
    (match_patient_to_trials p trials top_k min_score).length ≤ top_k ∧
    ∀ q : Nat, ∃ n,
      (match_patient_to_trials p trials top_k min_score).filter
          (fun m => m.score == q) =
        ((preMatches p trials min_score).filter (fun m => m.score == q)).take n := by
  refine ⟨fun m hm => ?_, ?_, ?_, fun q => ?_⟩
  · have h1 : m ∈ (preMatches p trials min_score).mergeSort byScoreDesc :=
      List.mem_of_mem_take hm
    exact (preMatches_mem (List.mem_mergeSort.mp h1)).1
  · have hs : ((preMatches p trials min_score).mergeSort byScoreDesc).Pairwise
        (fun a b => byScoreDesc a b = true) :=
      List.sorted_mergeSort byScoreDesc_trans byScoreDesc_total _
    have hs2 := hs.sublist (List.take_sublist top_k _)
    refine hs2.imp ?_
    intro a b h
    unfold byScoreDesc at h
    exact of_decide_eq_true h
  · exact List.length_take_le _ _
  · obtain ⟨n, hn⟩ := filter_take_eq (fun m => m.score == q)
      ((preMatches p trials min_score).mergeSort byScoreDesc) top_k
    rw [mergeSort_filter_score] at hn
    exact ⟨n, hn⟩

/-- Witness for C2 at a concrete patient and singleton trial collection. -/
theorem claim_C2_rank_contract_witness : 20 ≤ mA.score := by
  refine (claim_C2_rank_contract pA [tA] 10 20).1 mA ?_
  have h : preMatches pA [tA] 20 = [mA] := by decide
  unfold match_patient_to_trials
  rw [h, List.mergeSort_singleton]
  decide

theorem stepRecommended_total (strict : Bool) (p : Patient)
    (cm : ConfusionMatrix) (m : Trial × Nat) :
    (stepRecommended strict p cm m).total = cm.total + 1 := by
  unfold stepRecommended ConfusionMatrix.total
  split <;> simp <;> omega

theorem stepNotRecommended_total (strict : Bool) (p : Patient)
    (cm : ConfusionMatrix) (t : Trial) :
    (stepNotRecommended strict p cm t).total = cm.total + 1 := by
  unfold stepNotRecommended ConfusionMatrix.total
  split <;> simp <;> omega

theorem foldl_stepRecommended_total (strict : Bool) (p : Patient) :
    ∀ (l : List (Trial × Nat)) (cm : ConfusionMatrix),
      (l.foldl (stepRecommended strict p) cm).total = cm.total + l.length := by
  intro l
  induction l with
  | nil => intro cm; rfl
  | cons x xs ih =>
    intro cm
    rw [List.foldl_cons, ih, stepRecommended_total, List.length_cons]
    omega

theorem foldl_stepNotRecommended_total (strict : Bool) (p : Patient) :
    ∀ (l : List Trial) (cm : ConfusionMatrix),
      (l.foldl (stepNotRecommended strict p) cm).total = cm.total + l.length := by
  intro l
  induction l with
  | nil => intro cm; rfl
  | cons x xs ih =>
    intro cm
    rw [List.foldl_cons, ih, stepNotRecommended_total, List.length_cons]
    omega

/-- Each evaluated patient adds one classification per recommended trial and
one per sampled not-recommended trial. -/
theorem evalPatient_total (strict : Bool) (threshold : Nat)
    (cm : ConfusionMatrix) (s : PatientSample) :
    (evalPatient strict threshold cm s).total =
      cm.total + (s.cached.filter (fun m => threshold ≤ m.2)).length +
        s.not_recommended.length := by
  unfold evalPatient
  rw [foldl_stepNotRecommended_total, foldl_stepRecommended_total]

theorem evaluateCounts_total_aux (strict : Bool) (threshold : Nat) :
    ∀ (samples : List PatientSample) (cm : ConfusionMatrix),
      (samples.foldl (evalPatient strict threshold) cm).total =
        cm.total + (samples.map (fun s =>
          (s.cached.filter (fun m => threshold ≤ m.2)).length +
            s.not_recommended.length)).sum := by
  intro samples
  induction samples with
  | nil => intro cm; simp
  | cons x xs ih =>
    intro cm
    rw [List.foldl_cons, ih, evalPatient_total, List.map_cons, List.sum_cons]
    omega

theorem precision_bounds (cm : ConfusionMatrix) :
    0 ≤ precision cm ∧ precision cm ≤ 1 := by
  unfold precision
  split
  · rename_i h
    have hpos : (0 : ℚ) < (cm.true_positives : ℚ) + (cm.false_positives : ℚ) := by
      have : 0 < cm.true_positives + cm.false_positives := h
      exact_mod_cast this
    constructor
    · apply div_nonneg _ (le_of_lt hpos)
      positivity
    · rw [div_le_one hpos]
      have : (0 : ℚ) ≤ (cm.false_positives : ℚ) := by positivity
      linarith
  · norm_num

theorem recall_bounds (cm : ConfusionMatrix) :
    0 ≤ «recall» cm ∧ «recall» cm ≤ 1 := by
  unfold «recall»
  split
  · rename_i h
    have hpos : (0 : ℚ) < (cm.true_positives : ℚ) + (cm.false_negatives : ℚ) := by
      have : 0 < cm.true_positives + cm.false_negatives := h
      exact_mod_cast this
    constructor
    · apply div_nonneg _ (le_of_lt hpos)
      positivity
    · rw [div_le_one hpos]
      have : (0 : ℚ) ≤ (cm.false_negatives : ℚ) := by positivity
      linarith
  · norm_num

theorem f1_score_bounds (cm : ConfusionMatrix) :
    0 ≤ f1_score cm ∧ f1_score cm ≤ 1 := by
  obtain ⟨hp0, hp1⟩ := precision_bounds cm
  obtain ⟨hr0, hr1⟩ := recall_bounds cm
  unfold f1_score
  split
  · rename_i h
    constructor
    · apply div_nonneg _ (le_of_lt h)
      nlinarith
    · rw [div_le_one h]
      nlinarith
  · norm_num

theorem accuracy_bounds (cm : ConfusionMatrix) :
    0 ≤ accuracy cm ∧ accuracy cm ≤ 1 := by
  unfold accuracy
  split
  · rename_i h
    have hpos : (0 : ℚ) < (cm.total : ℚ) := by exact_mod_cast h
    constructor
    · apply div_nonneg _ (le_of_lt hpos)
      positivity
    · rw [div_le_one hpos]
      have : cm.true_positives + cm.true_negatives ≤ cm.total := by
        unfold ConfusionMatrix.total
        omega
      exact_mod_cast this
  · norm_num

theorem false_positive_rate_bounds (cm : ConfusionMatrix) :
    0 ≤ false_positive_rate cm ∧ false_positive_rate cm ≤ 1 := by
  unfold false_positive_rate
  split
  · rename_i h
    have hpos : (0 : ℚ) < (cm.false_positives : ℚ) + (cm.true_negatives : ℚ) := by
      have : 0 < cm.false_positives + cm.true_negatives := h
      exact_mod_cast this
    constructor
    · apply div_nonneg _ (le_of_lt hpos)
      positivity
    · rw [div_le_one hpos]
      have : (0 : ℚ) ≤ (cm.true_negatives : ℚ) := by positivity
      linarith
  · norm_num

theorem false_negative_rate_bounds (cm : ConfusionMatrix) :
    0 ≤ false_negative_rate cm ∧ false_negative_rate cm ≤ 1 := by
  unfold false_negative_rate
  split
  · rename_i h
    have hpos : (0 : ℚ) < (cm.false_negatives : ℚ) + (cm.true_positives : ℚ) := by
      have : 0 < cm.false_negatives + cm.true_positives := h
      exact_mod_cast this
    constructor
    · apply div_nonneg _ (le_of_lt hpos)
      positivity
    · rw [div_le_one hpos]
      have : (0 : ℚ) ≤ (cm.true_positives : ℚ) := by positivity
      linarith
  · norm_num

/-- C6: every run of the FP/FN analysis satisfies the confusion-matrix identity
(TP+FP+TN+FN equals the number of evaluated classifications) and every derived
metric lies in [0,1], each zero-denominator ratio being defined as 0. -/
theorem claim_C6_confusion_metrics (strict : Bool) (threshold : Nat)
    (samples : List PatientSample) :
    (evaluateCounts strict threshold samples).total =
      (samples.map (fun s =>
        (s.cached.filter (fun m => threshold ≤ m.2)).length +
          s.not_recommended.length)).sum ∧
    (0 ≤ precision (evaluateCounts strict threshold samples) ∧
      precision (evaluateCounts strict threshold samples) ≤ 1) ∧
    (0 ≤ «recall» (evaluateCounts strict threshold samples) ∧
      «recall» (evaluateCounts strict threshold samples) ≤ 1) ∧
    (0 ≤ f1_score (evaluateCounts strict threshold samples) ∧
      f1_score (evaluateCounts strict threshold samples) ≤ 1) ∧
    (0 ≤ accuracy (evaluateCounts strict threshold samples) ∧
      accuracy (evaluateCounts strict threshold samples) ≤ 1) ∧
    (0 ≤ false_positive_rate (evaluateCounts strict threshold samples) ∧
      false_positive_rate (evaluateCounts strict threshold samples) ≤ 1) ∧
    (0 ≤ false_negative_rate (evaluateCounts strict threshold samples) ∧
      false_negative_rate (evaluateCounts strict threshold samples) ≤ 1) := by
  refine ⟨?_, precision_bounds _, recall_bounds _, f1_score_bounds _,
    accuracy_bounds _, false_positive_rate_bounds _, false_negative_rate_bounds _⟩
  unfold evaluateCounts
  rw [evaluateCounts_total_aux]
  simp [ConfusionMatrix.total]

/-- C8 counterexample: a cached score of 60 for a pair whose fresh score is 50
is classified through the cached value by the recommended-trial path, so the
run differs from the spec-worded fresh-recomputation variant: the claim that
every validated score is recomputed fresh is false of the code. -/
theorem claim_C8_counterexample :
    evaluateCounts true 0 [⟨pB, [(tB, 60)], []⟩] ≠
      evaluateCountsFresh true 0 [⟨pB, [(tB, 60)], []⟩] := by
  decide

/-- C8 amended: `validate_strict_heuristic` and the not-recommended path of the
FP/FN analysis classify through a freshly recomputed `calculate_match_score`,
while the recommended path applies the ground-truth predicate to the cached
score it is given. -/
theorem claim_C8_fresh_recomputation (p : Patient) (t : Trial)
    (cm : ConfusionMatrix) (s : Nat) (strict : Bool) :
    strictHeuristicValid p t =
      is_valid_match p t (calculate_match_score p t).1 true ∧
    stepNotRecommended strict p cm t =
      (if is_valid_match p t (calculate_match_score p t).1 strict then
        { cm with false_negatives := cm.false_negatives + 1 }
      else { cm with true_negatives := cm.true_negatives + 1 }) ∧
    stepRecommended strict p cm (t, s) =
      (if is_valid_match p t s strict then
        { cm with true_positives := cm.true_positives + 1 }
      else { cm with false_positives := cm.false_positives + 1 }) :=
  ⟨rfl, rfl, rfl⟩

/-- C9: the sampling of `validate_negative_cases` is a function of the ambient
numpy state, which no seed controls — two runs over the same data from
different ambient states select different samples — while the seeded
strategies, e.g. `validate_strict_heuristic`, select samples independent of the
incoming `random`-module state because they reset it with `random.seed(42)`. -/
theorem claim_C9_unseeded_negative_sampling :
    (negativeCasesSample ⟨0⟩ [pA, pF] []).1 ≠
      (negativeCasesSample ⟨1⟩ [pA, pF] []).1 ∧
    ∀ (r r2 : PyRandom) (keys : List String) (n : Nat),
      (strictHeuristicSampleIds r keys n).1 =
        (strictHeuristicSampleIds r2 keys n).1 := by
  exact ⟨by decide, fun r r2 keys n => rfl⟩
